import Mathlib

/-!
Shallow embedding of `src/arrayh5.c` (h5utils): the in-memory N-dimensional
array type `arrayh5`, its constructors, the recursive transpose `rtranspose`
with its driver `arrayh5_transpose`, the range scan `arrayh5_getrange`, and
the container reader `arrayh5_read`.

Machine `double` elements are modelled as an abstract element type `α`
(a `LinearOrder` where the code compares elements); C `int` dimensions are
modelled as `Nat` (the spec's data model restricts dims to non-negative
integers); buffers are Lean lists; a freshly `malloc`ed, uninitialized
buffer is modelled by an arbitrary function `junk : Nat → α` supplied as an
extra parameter and universally quantified in the theorems.
-/

namespace ArrayH5

/-- Mirror of the C struct `arrayh5`: rank, dims, derived element count `N`,
and the contiguous row-major element buffer. -/
structure arrayh5 (α : Type) where
  rank : Nat
  dims : List Nat
  N : Nat
  data : List α
deriving DecidableEq, Repr

/-- Well-formedness invariant of the data model (spec section 3): `rank`
entries in `dims`, and `data` holds exactly `N = product dims` elements. -/
def wf {α : Type} (a : arrayh5 α) : Prop :=
  a.rank = a.dims.length ∧ a.N = a.dims.prod ∧ a.data.length = a.N

instance {α : Type} [DecidableEq α] (a : arrayh5 α) : Decidable (wf a) := by
  unfold wf; infer_instance

/-- Embedding of `arrayh5_create_withdata` (arrayh5.c lines 47-69): copies the
first `rank` entries of `dims`, accumulates `N` by the multiplication loop,
and either adopts the supplied buffer or mallocs an uninitialized buffer of
`N` elements (modelled by sampling `junk`). -/
def arrayh5_create_withdata {α : Type} (rank : Nat) (dims : List Nat)
    (data : Option (List α)) (junk : Nat → α) : arrayh5 α :=
  let ds := dims.take rank
  let n := ds.foldl (fun x y => x * y) 1
  arrayh5.mk rank ds n
    (match data with
     | some d => d
     | none => List.ofFn (fun i : Fin n => junk i))

/-- Embedding of `arrayh5_create` (arrayh5.c lines 71-74). -/
def arrayh5_create {α : Type} (rank : Nat) (dims : List Nat)
    (junk : Nat → α) : arrayh5 α :=
  arrayh5_create_withdata rank dims none junk

/-- Embedding of `arrayh5_clone` (arrayh5.c lines 76-79): shape-only copy with
a fresh uninitialized buffer. -/
def arrayh5_clone {α : Type} (a : arrayh5 α) (junk : Nat → α) : arrayh5 α :=
  arrayh5_create a.rank a.dims junk

/-- Embedding of `arrayh5_conformant` (arrayh5.c lines 87-97): equal rank and
an index loop comparing the first `rank` entries of the two dims buffers. -/
def arrayh5_conformant {α : Type} (a b : arrayh5 α) : Bool :=
  (a.rank == b.rank) &&
    (List.range a.rank).all (fun i => a.dims.getD i 0 == b.dims.getD i 0)

/-- Recursion worker for `rtranspose` (see there).  `fuel` is a structural
recursion counter that every call instantiates with `rank - curdim`, the
quantity the C recursion strictly decreases; the `fuel = 0` fallback
(returning the buffer unchanged) is therefore unreachable from
`arrayh5_transpose`, which starts at `curdim = 0` and whose recursion stops
at `curdim = rank - 1`. -/
def rtransposeAux {α : Type} (fuel : Nat) (curdim rank : Nat) (dims : List Nat)
    (curindex curindex_t : Nat) (data data_t : Nat → α) : Nat → α :=
  if rank = 0 then Function.update data_t 0 (data 0)
  else
    let prod_before := (dims.take curdim).prod
    let prod_after := ((dims.drop (curdim + 1)).take (rank - (curdim + 1))).prod
    if curdim = rank - 1 then
      (List.range (dims.getD curdim 0)).foldl
        (fun dt i =>
          Function.update dt (curindex_t + i * prod_before) (data (curindex + i)))
        data_t
    else
      match fuel with
      | 0 => data_t
      | fuel + 1 =>
        (List.range (dims.getD curdim 0)).foldl
          (fun dt i =>
            rtransposeAux fuel (curdim + 1) rank dims
              (curindex + i * prod_after) (curindex_t + i * prod_before) data dt)
          data_t

/-- Embedding of the recursive transpose worker `rtranspose` (arrayh5.c lines
99-127).  Buffers are modelled as total functions `Nat → α`; each C store
`data_t[k] = data[j]` becomes a `Function.update`.  `prod_before` and
`prod_after` are the products computed by the two `for` loops over
`dims[0..curdim-1]` and `dims[curdim+1..rank-1]`. -/
def rtranspose {α : Type} (curdim rank : Nat) (dims : List Nat)
    (curindex curindex_t : Nat) (data data_t : Nat → α) : Nat → α :=
  rtransposeAux (rank - curdim) curdim rank dims curindex curindex_t data data_t

/-- Single iteration of the dims-reversal loop of `arrayh5_transpose`
(arrayh5.c lines 139-143): `dummy = dims[i]; dims[i] = dims[rank-1-i];
dims[rank-1-i] = dummy`. -/
def dimsSwapIter (rank : Nat) (d : List Nat) (i : Nat) : List Nat :=
  (d.set i (d.getD (rank - 1 - i) 0)).set (rank - 1 - i) (d.getD i 0)

/-- The dims-reversal loop `for (i = 0; i < rank - 1 - i; ++i)` of
`arrayh5_transpose`; the loop body executes exactly for
`i = 0, …, rank/2 - 1`. -/
def revdims (rank : Nat) (d : List Nat) : List Nat :=
  (List.range (rank / 2)).foldl (dimsSwapIter rank) d

/-- Embedding of `arrayh5_transpose` (arrayh5.c lines 129-144): mallocs a new
buffer of `N` elements (initial contents `junk`), runs `rtranspose` from
`curdim = 0`, installs the new buffer, and reverses `dims` by the swap
loop.  `rank` and `N` are not touched. -/
def arrayh5_transpose {α : Type} [Inhabited α] (junk : Nat → α)
    (a : arrayh5 α) : arrayh5 α :=
  let fn := rtranspose 0 a.rank a.dims 0 0 (fun i => a.data.getD i default) junk
  arrayh5.mk a.rank (revdims a.rank a.dims) a.N
    (List.ofFn (fun i : Fin a.N => fn i))

/-- Embedding of `arrayh5_getrange` (arrayh5.c lines 146-158).  The fatal
`CHECK(a.N > 0)` is modelled as `none`; otherwise min and max start at
`data[0]` and the loop updates them over `data[1..N-1]`. -/
def arrayh5_getrange {α : Type} [LinearOrder α] [Inhabited α]
    (a : arrayh5 α) : Option (α × α) :=
  if 0 < a.N then
    let x0 := a.data.getD 0 default
    some ((List.range' 1 (a.N - 1)).foldl
      (fun mm i =>
        (if a.data.getD i default < mm.1 then a.data.getD i default else mm.1,
         if mm.2 < a.data.getD i default then a.data.getD i default else mm.2))
      (x0, x0))
  else none

/-- Row-major flat offset of a multi-index: the element at multi-index
`(i0, …, i_{r-1})` of an array with dims `(d0, …, d_{r-1})` sits at flat
offset `Σ i_k * product(dims[k+1..])` (spec section 3). -/
def rowMajor : List Nat → List Nat → Nat
  | _ :: ds, i :: is => i * ds.prod + rowMajor ds is
  | _, _ => 0

/-- Column-major flat offset of a multi-index (stride of axis `k` is the
product of the dims before it); this is the destination layout built by
`rtranspose`. -/
def colMajor : List Nat → List Nat → Nat
  | d :: ds, i :: is => i + d * colMajor ds is
  | _, _ => 0

/-- Boolean bounds check of a multi-index against a dims list (same length,
each index below its extent). -/
def validIdx : List Nat → List Nat → Bool
  | [], [] => true
  | d :: ds, i :: is => decide (i < d) && validIdx ds is
  | _, _ => false

/-- Inverse of `rowMajor`: decompose a flat offset into a multi-index by
successive division by the tail strides. -/
def unflatten : List Nat → Nat → List Nat
  | [], _ => []
  | _ :: ds, j => (j / ds.prod) :: unflatten ds (j % ds.prod)

/-- Insertion of a value at a given axis position of a multi-index (used to
re-insert the sliced axis). -/
def insAt {α : Type} : Nat → α → List α → List α
  | 0, a, l => a :: l
  | _ + 1, a, [] => [a]
  | n + 1, a, x :: l => x :: insAt n a l

/-- Abstract view of the HDF5 dataset named by an `arrayh5_read` call: its
per-axis extents and its row-major contents.  The container itself is an
external dependency of the repository (spec sections 1 and 6). -/
structure H5Dataset (α : Type) where
  dims : List Nat
  data : List α
deriving DecidableEq, Repr

/-- Oracle for the external HDF5 calls made by `arrayh5_read`: whether
`H5Fopen` succeeds, whether a dataset name is resolved (explicit `datapath`
or the `find_dataset` scan), whether `H5Dopen` succeeds, and whether the two
`H5Dread` calls (full read, slice read) succeed. -/
structure H5Env (α : Type) where
  file_ok : Bool
  dataset_found : Bool
  open_ok : Bool
  read_ok : Bool
  sliceread_ok : Bool
  dataset : H5Dataset α
deriving Repr

/-- State of the caller's output array `*a` when `arrayh5_read` returns:
fields still null (set at entry, arrayh5.c lines 195-196), array created and
then destroyed on the error path (lines 308-309), or a live array. -/
inductive OutState (α : Type) where
  | nulls : OutState α
  | destroyed : OutState α
  | live : arrayh5 α → OutState α
deriving DecidableEq, Repr

/-- Helper modelling `*a = …; a->data = buffer filled by H5Dread`: the array
built by `arrayh5_create` with its buffer replaced by what the container
read put there. -/
def withData {α : Type} (a : arrayh5 α) (d : List α) : arrayh5 α :=
  arrayh5.mk a.rank a.dims a.N d

/-- Modelled from the spec: the contents deposited by the slice-mode
`H5Dread` (arrayh5.c lines 267-289), whose hyperslab semantics live in the
external HDF5 library, not in this repository.  Per spec section 4.3 the
selection is the hyperplane where axis `slicedim` is fixed at `islice`, read
contiguously in row-major order of the remaining axes: the element at
multi-index `m` (with respect to `dims` with axis `slicedim` removed) is the
source element at multi-index `m` with `islice` re-inserted at position
`slicedim`. -/
def sliceData {α : Type} [Inhabited α] (dims : List Nat) (slicedim islice : Nat)
    (data : List α) : List α :=
  List.ofFn (fun j : Fin ((dims.eraseIdx slicedim).prod) =>
    data.getD
      (rowMajor dims (insAt slicedim islice (unflatten (dims.eraseIdx slicedim) j)))
      default)

/-- Embedding of `arrayh5_read` (arrayh5.c lines 185-319).  Error codes are
the C ones (indices into `arrayh5_read_strerror`): 1 file open, 2 dataset
not found, 3 read, 4 slice read, 5 invalid slice, 6 non-positive rank,
7 dataset open.  `slicedim` and `islice` are C `int`s, modelled as `Int`;
the dataset's rank is its number of extents.  The full-read `H5Dread`
copies the dataset contents verbatim (spec section 4.3); the slice-read
`H5Dread` deposits `sliceData`.  The rank-1 slice special case follows the
code: after `rank = rank - 1` hits `0`, the working dims buffer is set to
`[1]` but the array is built by `arrayh5_create(0, dims)` (line 277). -/
def arrayh5_read {α : Type} [Inhabited α] (env : H5Env α) (junk : Nat → α)
    (slicedim islice : Int) : Nat × OutState α :=
  if env.file_ok = false then (1, OutState.nulls)
  else if env.dataset_found = false then (2, OutState.nulls)
  else if env.open_ok = false then (7, OutState.nulls)
  else if env.dataset.dims.length = 0 then (6, OutState.nulls)
  else
    let rank := env.dataset.dims.length
    let dims := env.dataset.dims
    if slicedim < 0 ∨ ((rank : Int) ≤ slicedim ∧ islice = 0) then
      if env.read_ok = false then (3, OutState.destroyed)
      else (0, OutState.live (withData (arrayh5_create rank dims junk) env.dataset.data))
    else if slicedim < (rank : Int) ∧ 0 ≤ islice ∧
        islice < ((dims.getD slicedim.toNat 0 : Nat) : Int) then
      let a :=
        if rank - 1 = 0 then arrayh5_create 0 [1] junk
        else arrayh5_create (rank - 1) (dims.eraseIdx slicedim.toNat) junk
      if env.sliceread_ok = false then (4, OutState.destroyed)
      else (0, OutState.live
        (withData a (sliceData dims slicedim.toNat islice.toNat env.dataset.data)))
    else (5, OutState.nulls)

/-! Helper lemmas: the multiplication loop, multi-index arithmetic, and
generic facts about the fold patterns used by the loops of the C code. -/

theorem foldl_mul_eq_prod (l : List Nat) : l.foldl (fun x y => x * y) 1 = l.prod := by
  simpa using (@List.prod_eq_foldl Nat _ l).symm

theorem validIdx_length : ∀ {ds m : List Nat}, validIdx ds m = true → m.length = ds.length
  | [], [], _ => rfl
  | [], _ :: _, h => by simp [validIdx] at h
  | _ :: _, [], h => by simp [validIdx] at h
  | _ :: ds, _ :: is, h => by
    simp only [validIdx, Bool.and_eq_true, decide_eq_true_eq] at h
    simpa using validIdx_length h.2

theorem validIdx_cons {d : Nat} {ds : List Nat} {m : List Nat}
    (h : validIdx (d :: ds) m = true) :
    ∃ i is, m = i :: is ∧ i < d ∧ validIdx ds is = true := by
  cases m with
  | nil => simp [validIdx] at h
  | cons i is =>
    simp only [validIdx, Bool.and_eq_true, decide_eq_true_eq] at h
    exact ⟨i, is, rfl, h.1, h.2⟩

theorem rowMajor_lt : ∀ {ds m : List Nat}, validIdx ds m = true →
    rowMajor ds m < ds.prod
  | [], [], _ => by simp [rowMajor]
  | [], _ :: _, h => by simp [validIdx] at h
  | _ :: _, [], h => by simp [validIdx] at h
  | d :: ds, i :: is, h => by
    simp only [validIdx, Bool.and_eq_true, decide_eq_true_eq] at h
    have h2 := rowMajor_lt h.2
    have h3 : i + 1 ≤ d := h.1
    calc rowMajor (d :: ds) (i :: is) = i * ds.prod + rowMajor ds is := rfl
    _ < i * ds.prod + ds.prod := by omega
    _ = (i + 1) * ds.prod := by ring
    _ ≤ d * ds.prod := Nat.mul_le_mul_right _ h3
    _ = (d :: ds).prod := (List.prod_cons).symm

theorem rowMajor_surj : ∀ (ds : List Nat) (j : Nat), j < ds.prod →
    ∃ m, validIdx ds m = true ∧ rowMajor ds m = j
  | [], j, hj => by
    refine ⟨[], rfl, ?_⟩
    simp only [List.prod_nil] at hj
    simp [rowMajor]; omega
  | d :: ds, j, hj => by
    have hP : 0 < ds.prod := by
      rcases Nat.eq_zero_or_pos ds.prod with h0 | h0
      · simp [List.prod_cons, h0] at hj
      · exact h0
    have hq : j / ds.prod < d := by
      rw [Nat.div_lt_iff_lt_mul hP]
      simpa [List.prod_cons, Nat.mul_comm] using hj
    obtain ⟨m, hm1, hm2⟩ := rowMajor_surj ds (j % ds.prod) (Nat.mod_lt _ hP)
    refine ⟨j / ds.prod :: m, ?_, ?_⟩
    · simp [validIdx, hq, hm1]
    · show j / ds.prod * ds.prod + rowMajor ds m = j
      rw [hm2, Nat.mul_comm]
      exact Nat.div_add_mod j ds.prod

theorem unflatten_rowMajor : ∀ {ds m : List Nat}, validIdx ds m = true →
    unflatten ds (rowMajor ds m) = m
  | [], [], _ => rfl
  | [], _ :: _, h => by simp [validIdx] at h
  | _ :: _, [], h => by simp [validIdx] at h
  | d :: ds, i :: is, h => by
    simp only [validIdx, Bool.and_eq_true, decide_eq_true_eq] at h
    have hr := rowMajor_lt h.2
    have hP : 0 < ds.prod := by omega
    show (rowMajor (d :: ds) (i :: is)) / ds.prod ::
        unflatten ds ((rowMajor (d :: ds) (i :: is)) % ds.prod) = i :: is
    have he : rowMajor (d :: ds) (i :: is) = ds.prod * i + rowMajor ds is := by
      show i * ds.prod + rowMajor ds is = _
      ring
    rw [he, Nat.mul_add_div hP, Nat.mul_add_mod,
      Nat.div_eq_of_lt hr, Nat.mod_eq_of_lt hr,
      unflatten_rowMajor h.2]
    simp

theorem rowMajor_concat : ∀ {ds m : List Nat}, m.length = ds.length →
    ∀ (d i : Nat), rowMajor (ds ++ [d]) (m ++ [i]) = d * rowMajor ds m + i
  | [], [], _, d, i => by simp [rowMajor]
  | [], _ :: _, h, _, _ => by simp at h
  | _ :: _, [], h, _, _ => by simp at h
  | d0 :: ds, i0 :: is, h, d, i => by
    simp only [List.length_cons, Nat.add_right_cancel_iff] at h
    show i0 * ((ds ++ [d]).prod) + rowMajor (ds ++ [d]) (is ++ [i])
        = d * (i0 * ds.prod + rowMajor ds is) + i
    rw [rowMajor_concat h d i]
    simp [List.prod_append]
    ring

theorem validIdx_concat : ∀ (ds m : List Nat) (d i : Nat),
    validIdx (ds ++ [d]) (m ++ [i]) = (validIdx ds m && decide (i < d))
  | [], [], d, i => by simp [validIdx]
  | [], m0 :: ms, d, i => by
    cases ms <;> simp [validIdx]
  | d0 :: ds, [], d, i => by
    cases ds <;> simp [validIdx]
  | d0 :: ds, m0 :: ms, d, i => by
    show (decide (m0 < d0) && validIdx (ds ++ [d]) (ms ++ [i])) = _
    rw [validIdx_concat ds ms d i]
    show _ = (decide (m0 < d0) && validIdx ds ms && decide (i < d))
    rw [Bool.and_assoc]

theorem validIdx_reverse {ds m : List Nat} (h : validIdx ds m = true) :
    validIdx ds.reverse m.reverse = true := by
  induction ds generalizing m with
  | nil =>
    cases m with
    | nil => simpa using h
    | cons _ _ => simp [validIdx] at h
  | cons d ds ih =>
    obtain ⟨i, is, rfl, hi, hv⟩ := validIdx_cons h
    simp only [List.reverse_cons]
    rw [validIdx_concat]
    simp [ih hv, hi]

theorem colMajor_eq_rowMajor_reverse : ∀ {ds m : List Nat}, m.length = ds.length →
    colMajor ds m = rowMajor ds.reverse m.reverse
  | [], [], _ => rfl
  | [], _ :: _, h => by simp at h
  | _ :: _, [], h => by simp at h
  | d :: ds, i :: is, h => by
    simp only [List.length_cons, Nat.add_right_cancel_iff] at h
    simp only [List.reverse_cons]
    show i + d * colMajor ds is = rowMajor (ds.reverse ++ [d]) (is.reverse ++ [i])
    rw [rowMajor_concat (by simpa using h) d i,
      ← colMajor_eq_rowMajor_reverse h]
    omega

theorem colMajor_lt {ds m : List Nat} (h : validIdx ds m = true) :
    colMajor ds m < ds.prod := by
  rw [colMajor_eq_rowMajor_reverse (validIdx_length h), ← List.prod_reverse]
  exact rowMajor_lt (validIdx_reverse h)

theorem validIdx_insAt : ∀ (ds : List Nat) (d k : Nat) (m : List Nat),
    d < ds.length → k < ds.getD d 0 → validIdx (ds.eraseIdx d) m = true →
    validIdx ds (insAt d k m) = true
  | [], d, k, m, hd, _, _ => by simp at hd
  | d0 :: ds, 0, k, m, _, hk, hm => by
    show validIdx (d0 :: ds) (k :: m) = true
    simp only [List.getD_cons_zero] at hk
    simpa [validIdx, hk] using hm
  | d0 :: ds, d + 1, k, m, hd, hk, hm => by
    have hm' : validIdx (d0 :: ds.eraseIdx d) m = true := hm
    obtain ⟨i, is, rfl, hi, hv⟩ := validIdx_cons hm'
    show validIdx (d0 :: ds) (i :: insAt d k is) = true
    simp only [validIdx, Bool.and_eq_true, decide_eq_true_eq]
    refine ⟨hi, validIdx_insAt ds d k is ?_ ?_ hv⟩
    · simpa using Nat.lt_of_succ_lt_succ hd
    · simpa using hk

theorem foldl_preserve {α β : Type} (F : (Nat → α) → β → (Nat → α)) (l : List β)
    (dt : Nat → α) (j : Nat) (h : ∀ f i, i ∈ l → (F f i) j = f j) :
    (l.foldl F dt) j = dt j := by
  induction l generalizing dt with
  | nil => rfl
  | cons x xs ih =>
    rw [List.foldl_cons, ih (F dt x) (fun f i hi => h f i (List.mem_cons_of_mem _ hi)),
      h dt x (List.mem_cons_self _ _)]

theorem foldl_update_frame {α : Type} (g : Nat → Nat) (v : Nat → α) (dt : Nat → α)
    (n j : Nat) (h : ∀ i, i < n → j ≠ g i) :
    ((List.range n).foldl (fun f i => Function.update f (g i) (v i)) dt) j = dt j := by
  refine foldl_preserve _ _ _ _ ?_
  intro f i hi
  exact Function.update_noteq (h i (List.mem_range.mp hi)) _ _

theorem foldl_update_write {α : Type} (g : Nat → Nat) (v : Nat → α) (dt : Nat → α)
    (n i : Nat) (hi : i < n) (hinj : ∀ i2, i2 < n → g i2 = g i → i2 = i) :
    ((List.range n).foldl (fun f k => Function.update f (g k) (v k)) dt) (g i) = v i := by
  induction n with
  | zero => omega
  | succ n ih =>
    rw [List.range_succ, List.foldl_append, List.foldl_cons, List.foldl_nil]
    by_cases hin : i = n
    · subst hin
      exact Function.update_same _ _ _
    · have hgne : g i ≠ g n := fun he => hin (hinj n (by omega) he.symm).symm
      rw [Function.update_noteq hgne]
      exact ih (by omega) (fun i2 h2 he => hinj i2 (by omega) he)

theorem foldl_range_split {α : Type} (F : α → Nat → α) (n i : Nat) (hi : i < n)
    (dt : α) :
    (List.range n).foldl F dt
      = (List.range' (i + 1) (n - i - 1)).foldl F (F ((List.range i).foldl F dt) i) := by
  obtain ⟨k, rfl⟩ : ∃ k, n = i + 1 + k := ⟨n - i - 1, by omega⟩
  have h1 : List.range' 0 (i + 1 + k) = List.range' 0 i ++ List.range' (0 + i) (1 + k) := by
    have h := (List.range'_append_1 0 i (1 + k)).symm
    have e : 1 + k + i = i + 1 + k := by omega
    rwa [e] at h
  have h4 : List.range' (0 + i) (1 + k) = i :: List.range' (i + 1) k := by
    have e : 1 + k = k + 1 := by omega
    rw [Nat.zero_add, e, List.range'_succ]
  have e2 : i + 1 + k - i - 1 = k := by omega
  rw [List.range_eq_range', h1, List.foldl_append, h4, List.foldl_cons,
    List.range_eq_range', e2]

/-! The dims-reversal loop of `arrayh5_transpose` reverses the list. -/

theorem revdims_aux_length (n : Nat) : ∀ (k : Nat) (l : List Nat),
    ((List.range k).foldl (dimsSwapIter n) l).length = l.length := by
  intro k
  induction k with
  | zero => intro l; rfl
  | succ k ih =>
    intro l
    rw [List.range_succ, List.foldl_append, List.foldl_cons, List.foldl_nil]
    show (dimsSwapIter n _ k).length = _
    rw [dimsSwapIter]
    simp [ih l]

theorem revdims_aux_getElem? (l : List Nat) : ∀ (k : Nat), 2 * k ≤ l.length →
    ∀ j, j < l.length →
    ((List.range k).foldl (dimsSwapIter l.length) l)[j]? =
      if j < k ∨ l.length - k ≤ j then l[l.length - 1 - j]? else l[j]? := by
  intro k
  induction k with
  | zero =>
    intro _ j hj
    have hc : ¬ (j < 0 ∨ l.length - 0 ≤ j) := by omega
    rw [if_neg hc]
    rfl
  | succ k ih =>
    intro hk j hj
    rw [List.range_succ, List.foldl_append, List.foldl_cons, List.foldl_nil]
    have hlen : ((List.range k).foldl (dimsSwapIter l.length) l).length = l.length :=
      revdims_aux_length l.length k l
    have ihX : ∀ j2, j2 < l.length →
        ((List.range k).foldl (dimsSwapIter l.length) l)[j2]? =
          if j2 < k ∨ l.length - k ≤ j2 then l[l.length - 1 - j2]? else l[j2]? :=
      fun j2 hj2 => ih (by omega) j2 hj2
    have hk1 : k < l.length := by omega
    have hk2 : l.length - 1 - k < l.length := by omega
    have hv1 : ((List.range k).foldl (dimsSwapIter l.length) l).getD (l.length - 1 - k) 0
        = l.getD (l.length - 1 - k) 0 := by
      rw [List.getD_eq_getElem?_getD, List.getD_eq_getElem?_getD, ihX _ hk2,
        if_neg (by omega)]
    have hv2 : ((List.range k).foldl (dimsSwapIter l.length) l).getD k 0
        = l.getD k 0 := by
      rw [List.getD_eq_getElem?_getD, List.getD_eq_getElem?_getD, ihX _ hk1,
        if_neg (by omega)]
    show (dimsSwapIter l.length _ k)[j]? = _
    rw [dimsSwapIter, hv1, hv2]
    by_cases hjk : j = k
    · subst hjk
      rw [List.getElem?_set_ne (by omega), List.getElem?_set_self (by omega),
        if_pos (by omega), List.getElem?_eq_getElem hk2,
        List.getD_eq_getElem?_getD, List.getElem?_eq_getElem hk2]
      rfl
    · by_cases hjk2 : j = l.length - 1 - k
      · subst hjk2
        rw [List.getElem?_set_self (by simpa using by omega),
          if_pos (by omega)]
        have e : l.length - 1 - (l.length - 1 - k) = k := by omega
        rw [e, List.getElem?_eq_getElem hk1, List.getD_eq_getElem?_getD,
          List.getElem?_eq_getElem hk1]
        rfl
      · rw [List.getElem?_set_ne (by omega), List.getElem?_set_ne (by omega), ihX _ hj]
        by_cases hc : j < k ∨ l.length - k ≤ j
        · rw [if_pos hc, if_pos (by omega)]
        · rw [if_neg hc, if_neg (by omega)]

theorem revdims_eq_reverse (l : List Nat) : revdims l.length l = l.reverse := by
  apply List.ext_getElem?
  intro j
  by_cases hj : j < l.length
  · rw [revdims, revdims_aux_getElem? l (l.length / 2) (by omega) j hj]
    by_cases hc : j < l.length / 2 ∨ l.length - l.length / 2 ≤ j
    · rw [if_pos hc, List.getElem?_reverse hj]
    · rw [if_neg hc]
      have hmid : l.length - 1 - j = j := by omega
      rw [List.getElem?_reverse hj, hmid]
  · have e1 : (revdims l.length l)[j]? = none := by
      refine List.getElem?_eq_none ?_
      rw [revdims, revdims_aux_length]
      omega
    have e2 : l.reverse[j]? = none := by
      refine List.getElem?_eq_none ?_
      rw [List.length_reverse]
      omega
    rw [e1, e2]

/-! Unfolding equations for `rtranspose` in its two reachable recursion
shapes, and the central characterization of what it writes. -/

theorem drop_last_singleton : ∀ (l : List Nat) (i : Nat), i + 1 = l.length →
    l.drop i = [l.getD i 0]
  | [], i, h => by simp at h
  | x :: xs, 0, h => by
    have h2 : xs.length = 0 := by
      simp only [List.length_cons] at h
      omega
    have : xs = [] := List.length_eq_zero.mp h2
    simp [this]
  | x :: xs, i + 1, h => by
    have h2 : i + 1 = xs.length := by simpa using h
    show xs.drop i = [xs.getD i 0]
    exact drop_last_singleton xs i h2

theorem rtranspose_innermost {α : Type} (rank : Nat) (dims : List Nat)
    (ci cit : Nat) (data dt : Nat → α) (h0 : 0 < rank) :
    rtranspose (rank - 1) rank dims ci cit data dt =
      (List.range (dims.getD (rank - 1) 0)).foldl
        (fun f i =>
          Function.update f (cit + i * (dims.take (rank - 1)).prod) (data (ci + i)))
        dt := by
  rw [rtranspose, rtransposeAux, if_neg (by omega), if_pos rfl]

theorem rtranspose_rec {α : Type} (curdim rank : Nat) (dims : List Nat)
    (ci cit : Nat) (data dt : Nat → α) (h : curdim + 1 < rank) :
    rtranspose curdim rank dims ci cit data dt =
      (List.range (dims.getD curdim 0)).foldl
        (fun f i =>
          rtranspose (curdim + 1) rank dims
            (ci + i * ((dims.drop (curdim + 1)).take (rank - (curdim + 1))).prod)
            (cit + i * (dims.take curdim).prod) data f)
        dt := by
  rw [rtranspose]
  have e : rank - curdim = (rank - (curdim + 1)) + 1 := by omega
  rw [e, rtransposeAux, if_neg (by omega), if_neg (by omega)]
  simp only [rtranspose]

theorem rtranspose_master {α : Type} (rank : Nat) (dims : List Nat)
    (hlen : dims.length = rank) (hpos : ∀ x ∈ dims, 0 < x) (data : Nat → α) :
    ∀ (t curdim ci cit : Nat) (dt : Nat → α), rank - 1 - curdim = t → curdim < rank →
      ((∀ j, (∀ m, validIdx (dims.drop curdim) m = true →
          j ≠ cit + (dims.take curdim).prod * colMajor (dims.drop curdim) m) →
        rtranspose curdim rank dims ci cit data dt j = dt j)
      ∧ (∀ m, validIdx (dims.drop curdim) m = true →
        rtranspose curdim rank dims ci cit data dt
            (cit + (dims.take curdim).prod * colMajor (dims.drop curdim) m)
          = data (ci + rowMajor (dims.drop curdim) m))) := by
  intro t
  induction t with
  | zero =>
    intro curdim ci cit dt ht hcd
    have hc : curdim = rank - 1 := by omega
    subst hc
    have hdrop : dims.drop (rank - 1) = [dims.getD (rank - 1) 0] :=
      drop_last_singleton dims (rank - 1) (by omega)
    have hB : 0 < (dims.take (rank - 1)).prod :=
      List.prod_pos (fun x hx => hpos x (List.mem_of_mem_take hx))
    constructor
    · intro j hj
      rw [rtranspose_innermost _ _ _ _ _ _ (by omega)]
      refine foldl_update_frame (fun i => cit + i * (dims.take (rank - 1)).prod)
        (fun i => data (ci + i)) dt _ j ?_
      intro i hi
      have hv : validIdx (dims.drop (rank - 1)) [i] = true := by
        rw [hdrop]
        show (decide (i < dims.getD (rank - 1) 0) && validIdx [] []) = true
        simp only [Bool.and_eq_true, decide_eq_true_eq]
        exact ⟨hi, rfl⟩
      have hji := hj [i] hv
      have hcm : colMajor (dims.drop (rank - 1)) [i] = i := by
        rw [hdrop]
        simp [colMajor]
      rw [hcm] at hji
      show j ≠ cit + i * (dims.take (rank - 1)).prod
      have e : (dims.take (rank - 1)).prod * i = i * (dims.take (rank - 1)).prod :=
        Nat.mul_comm _ _
      rw [e] at hji
      exact hji
    · intro m hm
      rw [hdrop] at hm
      obtain ⟨m0, ms, rfl, hm0, hms⟩ := validIdx_cons hm
      have hnil : ms = [] := by
        cases ms with
        | nil => rfl
        | cons _ _ => simp [validIdx] at hms
      subst hnil
      have hcm : colMajor (dims.drop (rank - 1)) [m0] = m0 := by
        rw [hdrop]; simp [colMajor]
      have hrm : rowMajor (dims.drop (rank - 1)) [m0] = m0 := by
        rw [hdrop]; simp [rowMajor]
      rw [hcm, hrm, rtranspose_innermost _ _ _ _ _ _ (by omega)]
      have he : cit + (dims.take (rank - 1)).prod * m0
          = cit + m0 * (dims.take (rank - 1)).prod := by ring
      rw [he]
      refine foldl_update_write (fun i => cit + i * (dims.take (rank - 1)).prod)
        (fun i => data (ci + i)) dt _ m0 hm0 ?_
      intro i2 h2 he2
      have he4 : cit + i2 * (dims.take (rank - 1)).prod
          = cit + m0 * (dims.take (rank - 1)).prod := he2
      have he3 : i2 * (dims.take (rank - 1)).prod
          = m0 * (dims.take (rank - 1)).prod := by omega
      exact Nat.eq_of_mul_eq_mul_right hB he3
  | succ t ih =>
    intro curdim ci cit dt ht hcd
    have hlt : curdim + 1 < rank := by omega
    have hdrop : dims.drop curdim = dims.getD curdim 0 :: dims.drop (curdim + 1) := by
      rw [List.drop_eq_getElem_cons (by omega), List.getD_eq_getElem?_getD,
        List.getElem?_eq_getElem (by omega)]
      rfl
    have hA : ((dims.drop (curdim + 1)).take (rank - (curdim + 1))).prod
        = (dims.drop (curdim + 1)).prod := by
      rw [List.take_of_length_le (by simp [hlen])]
    have hB : 0 < (dims.take curdim).prod :=
      List.prod_pos (fun x hx => hpos x (List.mem_of_mem_take hx))
    have hn : 0 < dims.getD curdim 0 := by
      refine hpos _ ?_
      rw [List.getD_eq_getElem?_getD, List.getElem?_eq_getElem (by omega)]
      exact List.getElem_mem _
    have hBn : (dims.take (curdim + 1)).prod
        = (dims.take curdim).prod * dims.getD curdim 0 := by
      rw [List.prod_take_succ dims curdim (by omega), List.getD_eq_getElem?_getD,
        List.getElem?_eq_getElem (by omega)]
      rfl
    constructor
    · intro j hj
      rw [rtranspose_rec _ _ _ _ _ _ _ hlt]
      refine foldl_preserve _ _ _ _ ?_
      intro f i hi
      have hi' : i < dims.getD curdim 0 := List.mem_range.mp hi
      refine (ih (curdim + 1)
        (ci + i * ((dims.drop (curdim + 1)).take (rank - (curdim + 1))).prod)
        (cit + i * (dims.take curdim).prod) f (by omega) (by omega)).1 j ?_
      intro m' hm' he
      refine hj (i :: m') ?_ ?_
      · rw [hdrop]
        show (decide (i < dims.getD curdim 0) &&
          validIdx (dims.drop (curdim + 1)) m') = true
        simp only [Bool.and_eq_true, decide_eq_true_eq]
        exact ⟨hi', hm'⟩
      · rw [hdrop]
        show j = cit + (dims.take curdim).prod *
          (i + dims.getD curdim 0 * colMajor (dims.drop (curdim + 1)) m')
        rw [he, hBn]
        ring
    · intro m hm
      rw [hdrop] at hm
      obtain ⟨m0, m', rfl, hm0, hm'⟩ := validIdx_cons hm
      have hcm : colMajor (dims.drop curdim) (m0 :: m')
          = m0 + dims.getD curdim 0 * colMajor (dims.drop (curdim + 1)) m' := by
        rw [hdrop]
        rfl
      have hrm : rowMajor (dims.drop curdim) (m0 :: m')
          = m0 * (dims.drop (curdim + 1)).prod + rowMajor (dims.drop (curdim + 1)) m' := by
        rw [hdrop]
        rfl
      rw [hcm, hrm, rtranspose_rec _ _ _ _ _ _ _ hlt,
        foldl_range_split _ (dims.getD curdim 0) m0 hm0]
      have htgt : cit + (dims.take curdim).prod *
            (m0 + dims.getD curdim 0 * colMajor (dims.drop (curdim + 1)) m')
          = (cit + m0 * (dims.take curdim).prod) +
            (dims.take (curdim + 1)).prod * colMajor (dims.drop (curdim + 1)) m' := by
        rw [hBn]
        ring
      rw [htgt]
      have hpre : ∀ f i, i ∈ List.range' (m0 + 1) (dims.getD curdim 0 - m0 - 1) →
          (rtranspose (curdim + 1) rank dims
            (ci + i * ((dims.drop (curdim + 1)).take (rank - (curdim + 1))).prod)
            (cit + i * (dims.take curdim).prod) data f)
            ((cit + m0 * (dims.take curdim).prod) +
              (dims.take (curdim + 1)).prod * colMajor (dims.drop (curdim + 1)) m')
          = f ((cit + m0 * (dims.take curdim).prod) +
              (dims.take (curdim + 1)).prod * colMajor (dims.drop (curdim + 1)) m') := by
        intro f i hi
        have hi' : m0 + 1 ≤ i ∧ i < dims.getD curdim 0 := by
          have := List.mem_range'_1.mp hi
          omega
        refine (ih (curdim + 1)
          (ci + i * ((dims.drop (curdim + 1)).take (rank - (curdim + 1))).prod)
          (cit + i * (dims.take curdim).prod) f (by omega) (by omega)).1 _ ?_
        intro m'' hm'' he
        have he2 : m0 + dims.getD curdim 0 * colMajor (dims.drop (curdim + 1)) m'
            = i + dims.getD curdim 0 * colMajor (dims.drop (curdim + 1)) m'' := by
          refine Nat.eq_of_mul_eq_mul_left hB ?_
          have e3 : ∀ c : Nat, (dims.take curdim).prod * (m0 + dims.getD curdim 0 * c)
              = m0 * (dims.take curdim).prod + (dims.take (curdim + 1)).prod * c := by
            intro c
            rw [hBn]
            ring
          have e4 : ∀ (i2 c : Nat), (dims.take curdim).prod *
                (i2 + dims.getD curdim 0 * c)
              = i2 * (dims.take curdim).prod + (dims.take (curdim + 1)).prod * c := by
            intro i2 c
            rw [hBn]
            ring
          rw [e3, e4]
          omega
        have hmod : m0 = i := by
          have h5 : (m0 + dims.getD curdim 0 * colMajor (dims.drop (curdim + 1)) m')
                % dims.getD curdim 0
              = (i + dims.getD curdim 0 * colMajor (dims.drop (curdim + 1)) m'')
                % dims.getD curdim 0 := by rw [he2]
          rwa [Nat.add_mul_mod_self_left, Nat.add_mul_mod_self_left,
            Nat.mod_eq_of_lt hm0, Nat.mod_eq_of_lt (by omega)] at h5
        omega
      rw [foldl_preserve _ _ _ _ hpre,
        (ih (curdim + 1)
          (ci + m0 * ((dims.drop (curdim + 1)).take (rank - (curdim + 1))).prod)
          (cit + m0 * (dims.take curdim).prod)
          ((List.range m0).foldl
            (fun f i =>
              rtranspose (curdim + 1) rank dims
                (ci + i * ((dims.drop (curdim + 1)).take (rank - (curdim + 1))).prod)
                (cit + i * (dims.take curdim).prod) data f)
            dt) (by omega) (by omega)).2 m' hm']
      congr 1
      rw [hA]
      ring

/-! Transpose lifted to the `arrayh5` level. -/

theorem transpose_rank {α : Type} [Inhabited α] (junk : Nat → α) (a : arrayh5 α) :
    (arrayh5_transpose junk a).rank = a.rank := rfl

theorem transpose_N {α : Type} [Inhabited α] (junk : Nat → α) (a : arrayh5 α) :
    (arrayh5_transpose junk a).N = a.N := rfl

theorem transpose_dims {α : Type} [Inhabited α] (junk : Nat → α) (a : arrayh5 α)
    (hr : a.rank = a.dims.length) :
    (arrayh5_transpose junk a).dims = a.dims.reverse := by
  show revdims a.rank a.dims = a.dims.reverse
  rw [hr, revdims_eq_reverse]

theorem transpose_data_def {α : Type} [Inhabited α] (junk : Nat → α)
    (a : arrayh5 α) :
    (arrayh5_transpose junk a).data = List.ofFn (fun i : Fin a.N =>
      rtranspose 0 a.rank a.dims 0 0 (fun k => a.data.getD k default) junk i) := rfl

theorem transpose_data_length {α : Type} [Inhabited α] (junk : Nat → α)
    (a : arrayh5 α) : (arrayh5_transpose junk a).data.length = a.N := by
  rw [transpose_data_def]
  simp

theorem transpose_wf {α : Type} [Inhabited α] (junk : Nat → α) (a : arrayh5 α)
    (hwf : wf a) : wf (arrayh5_transpose junk a) := by
  obtain ⟨hr, hN, hd⟩ := hwf
  refine ⟨?_, ?_, ?_⟩
  · rw [transpose_rank, transpose_dims junk a hr, List.length_reverse, hr]
  · rw [transpose_N, transpose_dims junk a hr, List.prod_reverse, hN]
  · rw [transpose_data_length, transpose_N]

theorem transpose_getElem {α : Type} [Inhabited α] (junk : Nat → α) (a : arrayh5 α)
    (hwf : wf a) (hpos : ∀ x ∈ a.dims, 0 < x) (m : List Nat)
    (hm : validIdx a.dims m = true) :
    (arrayh5_transpose junk a).data[colMajor a.dims m]?
      = a.data[rowMajor a.dims m]? := by
  obtain ⟨hr, hN, hd⟩ := hwf
  have hcol : colMajor a.dims m < a.N := by
    rw [hN]
    exact colMajor_lt hm
  have hrow : rowMajor a.dims m < a.data.length := by
    rw [hd, hN]
    exact rowMajor_lt hm
  rw [transpose_data_def, List.getElem?_ofFn]
  simp only [List.ofFnNthVal]
  rw [dif_pos hcol]
  rcases Nat.eq_zero_or_pos a.rank with h0 | h0
  · have hdnil : a.dims = [] := List.length_eq_zero.mp (by omega)
    have hmnil : m = [] := by
      have hl := validIdx_length hm
      rw [hdnil] at hl
      exact List.length_eq_zero.mp (by simpa using hl)
    subst hmnil
    have hc0 : colMajor a.dims [] = 0 := by rw [hdnil]; rfl
    have hr0 : rowMajor a.dims [] = 0 := by rw [hdnil]; rfl
    have hv : rtranspose 0 a.rank a.dims 0 0 (fun i => a.data.getD i default) junk 0
        = a.data.getD 0 default := by
      rw [h0, hdnil]
      show rtransposeAux 0 0 0 [] 0 0 _ junk 0 = _
      rw [rtransposeAux, if_pos rfl]
      exact Function.update_same _ _ _
    rw [hr0] at hrow
    rw [hc0, hr0, hv, List.getD_eq_getElem?_getD, List.getElem?_eq_getElem hrow]
    rfl
  · have hw := (rtranspose_master a.rank a.dims hr.symm hpos
      (fun i => a.data.getD i default) (a.rank - 1 - 0) 0 0 0 junk rfl (by omega)).2
      m (by simpa using hm)
    simp only [List.take_zero, List.drop_zero, List.prod_nil, Nat.one_mul,
      Nat.zero_add] at hw
    rw [hw, List.getD_eq_getElem?_getD, List.getElem?_eq_getElem hrow]
    rfl

theorem transpose_data_getElem?_none {α : Type} [Inhabited α] (junk : Nat → α)
    (a : arrayh5 α) (j : Nat) (hj : a.N ≤ j) :
    (arrayh5_transpose junk a).data[j]? = none := by
  refine List.getElem?_eq_none ?_
  rw [transpose_data_length]
  omega

theorem conformant_of_eq {α : Type} (a b : arrayh5 α) (h1 : a.rank = b.rank)
    (h2 : a.dims = b.dims) : arrayh5_conformant a b = true := by
  rw [arrayh5_conformant, h1, h2]
  simp

/-- C1: for every well-formed NDArray `a` (dims of length rank, data of
length `N = product dims`), applying `arrayh5_transpose` twice (with any
contents in the two freshly malloced buffers) yields an array conformant to
`a` and elementwise equal to it. -/
theorem C1_transpose_involution {α : Type} [Inhabited α] (a : arrayh5 α)
    (junk1 junk2 : Nat → α) (hwf : wf a) :
    arrayh5_conformant a (arrayh5_transpose junk2 (arrayh5_transpose junk1 a)) = true ∧
    (arrayh5_transpose junk2 (arrayh5_transpose junk1 a)).data = a.data := by
  obtain ⟨hr, hN, hd⟩ := hwf
  have hT1wf := transpose_wf junk1 a ⟨hr, hN, hd⟩
  have hT1dims : (arrayh5_transpose junk1 a).dims = a.dims.reverse :=
    transpose_dims junk1 a hr
  have hdims2 : (arrayh5_transpose junk2 (arrayh5_transpose junk1 a)).dims = a.dims := by
    rw [transpose_dims junk2 _ hT1wf.1, hT1dims, List.reverse_reverse]
  constructor
  · exact conformant_of_eq _ _ rfl hdims2.symm
  · by_cases hz : ∀ x ∈ a.dims, 0 < x
    · apply List.ext_getElem?
      intro j
      by_cases hj : j < a.N
      · obtain ⟨m, hm, hjm⟩ := rowMajor_surj a.dims j (by rw [← hN]; exact hj)
        have hmrev : validIdx a.dims.reverse m.reverse = true := validIdx_reverse hm
        have h2 := transpose_getElem junk2 (arrayh5_transpose junk1 a) hT1wf
          (by rw [hT1dims]; intro x hx; exact hz x (List.mem_reverse.mp hx))
          m.reverse (by rw [hT1dims]; exact hmrev)
        rw [hT1dims] at h2
        have hcoleq : colMajor a.dims.reverse m.reverse = rowMajor a.dims m := by
          rw [colMajor_eq_rowMajor_reverse (validIdx_length hmrev),
            List.reverse_reverse, List.reverse_reverse]
        have hroweq : rowMajor a.dims.reverse m.reverse = colMajor a.dims m :=
          (colMajor_eq_rowMajor_reverse (validIdx_length hm)).symm
        have h1 := transpose_getElem junk1 a ⟨hr, hN, hd⟩ hz m hm
        rw [hcoleq, hroweq] at h2
        rw [hjm] at h2 h1
        rw [h2, h1]
      · rw [transpose_data_getElem?_none junk2 _ j (by rw [transpose_N]; omega),
          List.getElem?_eq_none (by omega)]
    · push_neg at hz
      obtain ⟨x, hx, hx0⟩ := hz
      have hN0 : a.N = 0 := by
        rw [hN]
        have hx00 : x = 0 := by omega
        subst hx00
        exact List.prod_eq_zero hx
      have e1 : (arrayh5_transpose junk2 (arrayh5_transpose junk1 a)).data = [] := by
        refine List.length_eq_zero.mp ?_
        rw [transpose_data_length, transpose_N, hN0]
      have e2 : a.data = [] := List.length_eq_zero.mp (by rw [hd, hN0])
      rw [e1, e2]

/-- Witness for C1 at the concrete shape-(2,3) array `[1,2,3,4,5,6]`. -/
theorem C1_transpose_involution_witness :
    arrayh5_conformant (arrayh5.mk 2 [2, 3] 6 ([1, 2, 3, 4, 5, 6] : List Int))
      (arrayh5_transpose (fun _ => 0) (arrayh5_transpose (fun _ => 0)
        (arrayh5.mk 2 [2, 3] 6 [1, 2, 3, 4, 5, 6]))) = true ∧
    (arrayh5_transpose (fun _ => 0) (arrayh5_transpose (fun _ => 0)
      (arrayh5.mk 2 [2, 3] 6 ([1, 2, 3, 4, 5, 6] : List Int)))).data
      = [1, 2, 3, 4, 5, 6] :=
  C1_transpose_involution (arrayh5.mk 2 [2, 3] 6 [1, 2, 3, 4, 5, 6])
    (fun _ => 0) (fun _ => 0) (by decide)

/-- C2: for a rank-2 array of shape `(R, C)`, `arrayh5_transpose` produces
shape `(C, R)` with `result[j][i] = original[i][j]` (row-major offsets
`j*R + i` and `i*C + j`); in particular the shape-(2,3) array
`[1,2,3,4,5,6]` transposes to shape `(3,2)` with values `[1,4,2,5,3,6]`. -/
theorem C2_transpose_rank2 (a : arrayh5 Int) (junk : Nat → Int) (R C i j : Nat)
    (hwf : wf a) (hdims : a.dims = [R, C]) (hi : i < R) (hj : j < C) :
    (arrayh5_transpose junk a).dims = [C, R] ∧
    (arrayh5_transpose junk a).data[j * R + i]? = a.data[i * C + j]? ∧
    (arrayh5_transpose (fun _ => 0) (arrayh5.mk 2 [2, 3] 6 [1, 2, 3, 4, 5, 6])).dims
      = [3, 2] ∧
    (arrayh5_transpose (fun _ => 0) (arrayh5.mk 2 [2, 3] 6 [1, 2, 3, 4, 5, 6])).data
      = [1, 4, 2, 5, 3, 6] := by
  refine ⟨?_, ?_, by decide, by decide⟩
  · rw [transpose_dims junk a hwf.1, hdims]
    rfl
  · have hm : validIdx a.dims [i, j] = true := by
      rw [hdims]
      show (decide (i < R) && (decide (j < C) && validIdx [] [])) = true
      simp only [Bool.and_eq_true, decide_eq_true_eq]
      exact ⟨hi, ⟨hj, rfl⟩⟩
    have hpos : ∀ x ∈ a.dims, 0 < x := by
      rw [hdims]
      intro x hx
      simp only [List.mem_cons, List.not_mem_nil, or_false] at hx
      rcases hx with rfl | rfl <;> omega
    have h := transpose_getElem junk a hwf hpos [i, j] hm
    have hcol : colMajor a.dims [i, j] = j * R + i := by
      rw [hdims]
      show i + R * (j + C * 0) = j * R + i
      ring
    have hrow : rowMajor a.dims [i, j] = i * C + j := by
      rw [hdims]
      show i * ([C].prod) + (j * ([].prod) + 0) = i * C + j
      simp only [List.prod_cons, List.prod_nil]
      ring
    rw [hcol, hrow] at h
    exact h

/-- Witness for C2 at the spec's example array with `i = 1`, `j = 2`. -/
theorem C2_transpose_rank2_witness :
    (arrayh5_transpose (fun _ => 0)
      (arrayh5.mk 2 [2, 3] 6 ([1, 2, 3, 4, 5, 6] : List Int))).dims = [3, 2] ∧
    (arrayh5_transpose (fun _ => 0)
        (arrayh5.mk 2 [2, 3] 6 ([1, 2, 3, 4, 5, 6] : List Int))).data[2 * 2 + 1]?
      = (arrayh5.mk 2 [2, 3] 6 ([1, 2, 3, 4, 5, 6] : List Int)).data[1 * 3 + 2]? ∧
    (arrayh5_transpose (fun _ => 0) (arrayh5.mk 2 [2, 3] 6 [1, 2, 3, 4, 5, 6])).dims
      = [3, 2] ∧
    (arrayh5_transpose (fun _ => 0) (arrayh5.mk 2 [2, 3] 6 [1, 2, 3, 4, 5, 6])).data
      = [1, 4, 2, 5, 3, 6] :=
  C2_transpose_rank2 (arrayh5.mk 2 [2, 3] 6 [1, 2, 3, 4, 5, 6]) (fun _ => 0)
    2 3 1 2 (by decide) rfl (by decide) (by decide)

/-- C10: on a well-formed array of rank 0 or rank 1, `arrayh5_transpose` is
the identity on both the dims sequence and the buffer contents. -/
theorem C10_transpose_low_rank {α : Type} [Inhabited α] (a : arrayh5 α)
    (junk : Nat → α) (hwf : wf a) (hrk : a.rank = 0 ∨ a.rank = 1) :
    (arrayh5_transpose junk a).dims = a.dims ∧
    (arrayh5_transpose junk a).data = a.data := by
  obtain ⟨hr, hN, hd⟩ := hwf
  constructor
  · rw [transpose_dims junk a hr]
    rcases hrk with h0 | h1
    · have hdnil : a.dims = [] := List.length_eq_zero.mp (by omega)
      rw [hdnil]
      rfl
    · obtain ⟨x, hx⟩ : ∃ x, a.dims = [x] := List.length_eq_one.mp (by omega)
      rw [hx]
      rfl
  · rcases hrk with h0 | h1
    · have hdnil : a.dims = [] := List.length_eq_zero.mp (by omega)
      have hN1 : a.N = 1 := by rw [hN, hdnil]; rfl
      apply List.ext_getElem?
      intro j
      by_cases hj : j < 1
      · have hj0 : j = 0 := by omega
        subst hj0
        have h := transpose_getElem junk a ⟨hr, hN, hd⟩
          (by rw [hdnil]; intro x hx; simp at hx) [] (by rw [hdnil]; rfl)
        have hc0 : colMajor a.dims [] = 0 := by rw [hdnil]; rfl
        have hr0 : rowMajor a.dims [] = 0 := by rw [hdnil]; rfl
        rw [hc0, hr0] at h
        exact h
      · rw [transpose_data_getElem?_none junk a j (by omega),
          List.getElem?_eq_none (by omega)]
    · obtain ⟨x, hx⟩ : ∃ x, a.dims = [x] := List.length_eq_one.mp (by omega)
      have hNx : a.N = x := by rw [hN, hx]; simp
      apply List.ext_getElem?
      intro j
      by_cases hj : j < x
      · have hm : validIdx a.dims [j] = true := by
          rw [hx]
          show (decide (j < x) && validIdx [] []) = true
          simp only [Bool.and_eq_true, decide_eq_true_eq]
          exact ⟨hj, rfl⟩
        have hpos : ∀ y ∈ a.dims, 0 < y := by
          rw [hx]
          intro y hy
          simp only [List.mem_cons, List.not_mem_nil, or_false] at hy
          subst hy
          omega
        have h := transpose_getElem junk a ⟨hr, hN, hd⟩ hpos [j] hm
        have hc : colMajor a.dims [j] = j := by
          rw [hx]
          show j + x * 0 = j
          ring
        have hrm : rowMajor a.dims [j] = j := by
          rw [hx]
          show j * ([].prod) + 0 = j
          simp
        rw [hc, hrm] at h
        exact h
      · rw [transpose_data_getElem?_none junk a j (by omega),
          List.getElem?_eq_none (by omega)]

/-- Witness for C10 at a concrete rank-1 array. -/
theorem C10_transpose_low_rank_witness :
    (arrayh5_transpose (fun _ => 0)
      (arrayh5.mk 1 [3] 3 ([5, 6, 7] : List Int))).dims = [3] ∧
    (arrayh5_transpose (fun _ => 0)
      (arrayh5.mk 1 [3] 3 ([5, 6, 7] : List Int))).data = [5, 6, 7] :=
  C10_transpose_low_rank (arrayh5.mk 1 [3] 3 [5, 6, 7]) (fun _ => 0)
    (by decide) (Or.inr rfl)

/-- C7: `arrayh5_create(rank, dims)` — and `arrayh5_create_withdata` with any
buffer — returns an array whose `N` is the product of all entries of `dims`
(empty product 1 for rank 0) and whose dims field is an elementwise copy of
the given dims. -/
theorem C7_create_N_prod {α : Type} (rank : Nat) (dims : List Nat)
    (buf : Option (List α)) (junk : Nat → α) (h : rank = dims.length) :
    (arrayh5_create_withdata rank dims buf junk).N = dims.prod ∧
    (arrayh5_create_withdata rank dims buf junk).dims = dims ∧
    (arrayh5_create rank dims junk).N = dims.prod ∧
    (arrayh5_create rank dims junk).dims = dims := by
  subst h
  have ht : dims.take dims.length = dims := List.take_length dims
  refine ⟨?_, ?_, ?_, ?_⟩
  · show (dims.take dims.length).foldl (fun x y => x * y) 1 = dims.prod
    rw [ht, foldl_mul_eq_prod]
  · exact ht
  · show (dims.take dims.length).foldl (fun x y => x * y) 1 = dims.prod
    rw [ht, foldl_mul_eq_prod]
  · exact ht

/-- Witness for C7 at rank 2, dims (2,3), with and without a caller buffer. -/
theorem C7_create_N_prod_witness :
    (arrayh5_create_withdata 2 [2, 3] (some ([9, 8, 7, 6, 5, 4] : List Int))
      (fun _ => 0)).N = [2, 3].prod ∧
    (arrayh5_create_withdata 2 [2, 3] (some ([9, 8, 7, 6, 5, 4] : List Int))
      (fun _ => 0)).dims = [2, 3] ∧
    (arrayh5_create 2 [2, 3] (fun _ => (0 : Int))).N = [2, 3].prod ∧
    (arrayh5_create 2 [2, 3] (fun _ => (0 : Int))).dims = [2, 3] :=
  C7_create_N_prod 2 [2, 3] (some [9, 8, 7, 6, 5, 4]) (fun _ => 0) rfl

/-! The `arrayh5_getrange` scan computes the minimum and maximum. -/

theorem getrange_foldl_eq {α : Type} [LinearOrder α] [Inhabited α] (l : List α) :
    ∀ (k s : Nat) (b : α × α), s + k ≤ l.length →
    (List.range' s k).foldl
      (fun mm i =>
        (if l.getD i default < mm.1 then l.getD i default else mm.1,
         if mm.2 < l.getD i default then l.getD i default else mm.2)) b
      = ((l.drop s).take k).foldl
      (fun mm y => (if y < mm.1 then y else mm.1, if mm.2 < y then y else mm.2)) b := by
  intro k
  induction k with
  | zero =>
    intro s b _
    simp
  | succ k ih =>
    intro s b h
    have hs : s < l.length := by omega
    rw [List.range'_succ, List.foldl_cons]
    have hd : (l.drop s).take (k + 1) = l[s] :: ((l.drop (s + 1)).take k) := by
      rw [List.drop_eq_getElem_cons hs, List.take_succ_cons]
    have hg : l.getD s default = l[s] := by
      rw [List.getD_eq_getElem?_getD, List.getElem?_eq_getElem hs]
      rfl
    rw [hd, List.foldl_cons, hg]
    exact ih (s + 1) _ (by omega)

theorem minmax_foldl {α : Type} [LinearOrder α] :
    ∀ (t : List α) (mn mx : α) (r : α × α),
    t.foldl (fun mm y => (if y < mm.1 then y else mm.1, if mm.2 < y then y else mm.2))
        (mn, mx) = r →
    r.1 ≤ mn ∧ mx ≤ r.2 ∧ (r.1 = mn ∨ r.1 ∈ t) ∧ (r.2 = mx ∨ r.2 ∈ t) ∧
      ∀ x ∈ t, r.1 ≤ x ∧ x ≤ r.2 := by
  intro t
  induction t with
  | nil =>
    intro mn mx r h
    simp only [List.foldl_nil] at h
    subst h
    exact ⟨le_rfl, le_rfl, Or.inl rfl, Or.inl rfl, by simp⟩
  | cons y t ih =>
    intro mn mx r h
    rw [List.foldl_cons] at h
    obtain ⟨h1, h2, h3, h4, h5⟩ := ih _ _ r h
    have hmle : (if y < mn then y else mn) ≤ mn := by
      split_ifs with hc
      · exact le_of_lt hc
      · exact le_rfl
    have hmy : (if y < mn then y else mn) ≤ y := by
      split_ifs with hc
      · exact le_rfl
      · exact le_of_not_lt hc
    have hxle : mx ≤ (if mx < y then y else mx) := by
      split_ifs with hc
      · exact le_of_lt hc
      · exact le_rfl
    have hxy : y ≤ (if mx < y then y else mx) := by
      split_ifs with hc
      · exact le_rfl
      · exact le_of_not_lt hc
    refine ⟨h1.trans hmle, hxle.trans h2, ?_, ?_, ?_⟩
    · rcases h3 with he | hm
      · by_cases hc : y < mn
        · rw [if_pos hc] at he
          exact Or.inr (he ▸ List.mem_cons_self _ _)
        · rw [if_neg hc] at he
          exact Or.inl he
      · exact Or.inr (List.mem_cons_of_mem _ hm)
    · rcases h4 with he | hm
      · by_cases hc : mx < y
        · rw [if_pos hc] at he
          exact Or.inr (he ▸ List.mem_cons_self _ _)
        · rw [if_neg hc] at he
          exact Or.inl he
      · exact Or.inr (List.mem_cons_of_mem _ hm)
    · intro x hx
      rcases List.mem_cons.mp hx with rfl | hxt
      · exact ⟨h1.trans hmy, hxy.trans h2⟩
      · exact h5 x hxt

/-- C8: `arrayh5_getrange` fails with the empty-array condition when
`N = 0`; when `N > 0` it returns the minimum and maximum over all `N`
elements of the buffer; over the elements `{3, -1, 7, 2}` it returns
`(-1, 7)`.  (The model is a pure function of `a`, so `a` is unchanged.) -/
theorem C8_getrange {α : Type} [LinearOrder α] [Inhabited α] (a : arrayh5 α)
    (hwf : wf a) :
    (a.N = 0 → arrayh5_getrange a = none) ∧
    (0 < a.N → ∃ mn mx, arrayh5_getrange a = some (mn, mx) ∧ mn ∈ a.data ∧
      mx ∈ a.data ∧ ∀ x ∈ a.data, mn ≤ x ∧ x ≤ mx) ∧
    arrayh5_getrange (arrayh5.mk 1 [4] 4 ([3, -1, 7, 2] : List Int)) = some (-1, 7) := by
  obtain ⟨hr, hN, hd⟩ := hwf
  refine ⟨?_, ?_, by decide⟩
  · intro h0
    rw [arrayh5_getrange, if_neg (by omega)]
  · intro hpos
    have hlen : 0 < a.data.length := by omega
    have hx0 : a.data.getD 0 default = a.data[0] := by
      rw [List.getD_eq_getElem?_getD, List.getElem?_eq_getElem hlen]
      rfl
    have hre : arrayh5_getrange a
        = some ((List.range' 1 (a.N - 1)).foldl
          (fun mm i =>
            (if a.data.getD i default < mm.1 then a.data.getD i default else mm.1,
             if mm.2 < a.data.getD i default then a.data.getD i default else mm.2))
          (a.data.getD 0 default, a.data.getD 0 default)) := by
      rw [arrayh5_getrange, if_pos hpos]
    have ht : (a.data.drop 1).take (a.N - 1) = a.data.drop 1 := by
      apply List.take_of_length_le
      rw [List.length_drop, hd]
    rw [hre, getrange_foldl_eq a.data (a.N - 1) 1 _ (by omega), ht]
    obtain ⟨h1, h2, h3, h4, h5⟩ := minmax_foldl (a.data.drop 1)
      (a.data.getD 0 default) (a.data.getD 0 default) _ rfl
    have hsplit : a.data = a.data[0] :: a.data.drop 1 := by
      conv_lhs => rw [← List.drop_zero a.data, List.drop_eq_getElem_cons hlen]
    refine ⟨_, _, rfl, ?_, ?_, ?_⟩
    · rcases h3 with he | hm
      · rw [he, hx0]
        exact List.getElem_mem _
      · exact List.mem_of_mem_drop hm
    · rcases h4 with he | hm
      · rw [he, hx0]
        exact List.getElem_mem _
      · exact List.mem_of_mem_drop hm
    · intro x hx
      rw [hsplit] at hx
      rcases List.mem_cons.mp hx with rfl | hxt
      · exact ⟨le_of_le_of_eq h1 hx0, le_of_eq_of_le hx0.symm h2⟩
      · exact h5 x hxt

/-- Witness for C8 at the spec's example array `{3, -1, 7, 2}`. -/
theorem C8_getrange_witness :
    ((arrayh5.mk 1 [4] 4 ([3, -1, 7, 2] : List Int)).N = 0 →
      arrayh5_getrange (arrayh5.mk 1 [4] 4 ([3, -1, 7, 2] : List Int)) = none) ∧
    (0 < (arrayh5.mk 1 [4] 4 ([3, -1, 7, 2] : List Int)).N →
      ∃ mn mx, arrayh5_getrange (arrayh5.mk 1 [4] 4 ([3, -1, 7, 2] : List Int))
          = some (mn, mx) ∧
        mn ∈ (arrayh5.mk 1 [4] 4 ([3, -1, 7, 2] : List Int)).data ∧
        mx ∈ (arrayh5.mk 1 [4] 4 ([3, -1, 7, 2] : List Int)).data ∧
        ∀ x ∈ (arrayh5.mk 1 [4] 4 ([3, -1, 7, 2] : List Int)).data,
          mn ≤ x ∧ x ≤ mx) ∧
    arrayh5_getrange (arrayh5.mk 1 [4] 4 ([3, -1, 7, 2] : List Int)) = some (-1, 7) :=
  C8_getrange (arrayh5.mk 1 [4] 4 [3, -1, 7, 2]) (by decide)

/-! The reader: branch structure of `arrayh5_read` after a successful open
with a resolvable dataset of positive rank. -/

theorem arrayh5_read_body {α : Type} [Inhabited α] (env : H5Env α) (junk : Nat → α)
    (sd is : Int) (h1 : env.file_ok = true) (h2 : env.dataset_found = true)
    (h3 : env.open_ok = true) (h4 : env.dataset.dims.length ≠ 0) :
    arrayh5_read env junk sd is =
      (if sd < 0 ∨ ((env.dataset.dims.length : Int) ≤ sd ∧ is = 0) then
        if env.read_ok = false then (3, OutState.destroyed)
        else (0, OutState.live (withData
          (arrayh5_create env.dataset.dims.length env.dataset.dims junk)
          env.dataset.data))
      else if sd < (env.dataset.dims.length : Int) ∧ 0 ≤ is ∧
          is < ((env.dataset.dims.getD sd.toNat 0 : Nat) : Int) then
        if env.sliceread_ok = false then (4, OutState.destroyed)
        else (0, OutState.live (withData
          (if env.dataset.dims.length - 1 = 0 then arrayh5_create 0 [1] junk
           else arrayh5_create (env.dataset.dims.length - 1)
             (env.dataset.dims.eraseIdx sd.toNat) junk)
          (sliceData env.dataset.dims sd.toNat is.toNat env.dataset.data)))
      else (5, OutState.nulls)) := by
  rw [arrayh5_read, if_neg (by simp [h1]), if_neg (by simp [h2]),
    if_neg (by simp [h3]), if_neg h4]

/-- The slice-mode buffer contents: the element of the slice at reduced
multi-index `m` is the source element at `m` with the slice index
re-inserted at the sliced axis. -/
theorem sliceData_getElem {α : Type} [Inhabited α] (dims : List Nat) (d k : Nat)
    (data : List α) (hlen : data.length = dims.prod)
    (hd : d < dims.length) (hk : k < dims.getD d 0)
    (m : List Nat) (hm : validIdx (dims.eraseIdx d) m = true) :
    (sliceData dims d k data)[rowMajor (dims.eraseIdx d) m]?
      = data[rowMajor dims (insAt d k m)]? := by
  have hr := rowMajor_lt hm
  rw [sliceData, List.getElem?_ofFn]
  simp only [List.ofFnNthVal]
  rw [dif_pos hr]
  show some (data.getD (rowMajor dims (insAt d k
      (unflatten (dims.eraseIdx d) (rowMajor (dims.eraseIdx d) m)))) default) = _
  rw [unflatten_rowMajor hm]
  have hv : validIdx dims (insAt d k m) = true := validIdx_insAt dims d k m hd hk hm
  have hb : rowMajor dims (insAt d k m) < data.length := by
    rw [hlen]
    exact rowMajor_lt hv
  rw [List.getD_eq_getElem?_getD, List.getElem?_eq_getElem hb]
  rfl

/-- C3: a slice read (`0 ≤ slicedim < rank`, `0 ≤ islice < dims[slicedim]`)
on a dataset of rank at least 2 succeeds and returns an array whose dims are
the original dims with axis `slicedim` removed (other axes in order) and
whose contents are the original elements restricted to
`index[slicedim] = islice`. -/
theorem C3_sliceread {α : Type} [Inhabited α] (env : H5Env α) (junk : Nat → α)
    (d k : Nat) (h1 : env.file_ok = true) (h2 : env.dataset_found = true)
    (h3 : env.open_ok = true) (h5 : env.sliceread_ok = true)
    (hrank : 2 ≤ env.dataset.dims.length)
    (hwfd : env.dataset.data.length = env.dataset.dims.prod)
    (hd : d < env.dataset.dims.length) (hk : k < env.dataset.dims.getD d 0) :
    ∃ A, arrayh5_read env junk (d : Int) (k : Int) = (0, OutState.live A) ∧
      A.rank = env.dataset.dims.length - 1 ∧
      A.dims = env.dataset.dims.eraseIdx d ∧
      A.N = (env.dataset.dims.eraseIdx d).prod ∧
      ∀ m, validIdx (env.dataset.dims.eraseIdx d) m = true →
        A.data[rowMajor (env.dataset.dims.eraseIdx d) m]?
          = env.dataset.data[rowMajor env.dataset.dims (insAt d k m)]? := by
  rw [arrayh5_read_body env junk _ _ h1 h2 h3 (by omega)]
  simp only [Int.toNat_ofNat]
  rw [if_neg (by omega), if_pos (by omega), if_neg (by simp [h5]),
    if_neg (by omega)]
  have hel : (env.dataset.dims.eraseIdx d).length = env.dataset.dims.length - 1 := by
    rw [List.length_eraseIdx, if_pos hd]
  refine ⟨_, rfl, rfl, ?_, ?_, ?_⟩
  · show (env.dataset.dims.eraseIdx d).take (env.dataset.dims.length - 1)
      = env.dataset.dims.eraseIdx d
    rw [← hel, List.take_length]
  · show ((env.dataset.dims.eraseIdx d).take (env.dataset.dims.length - 1)).foldl
      (fun x y => x * y) 1 = (env.dataset.dims.eraseIdx d).prod
    rw [← hel, List.take_length, foldl_mul_eq_prod]
  · intro m hm
    exact sliceData_getElem env.dataset.dims d k env.dataset.data hwfd hd hk m hm

/-- Witness for C3: slicing axis 0 at index 1 of the (2,3) dataset
`[1,2,3,4,5,6]`. -/
theorem C3_sliceread_witness :
    ∃ A, arrayh5_read (H5Env.mk true true true true true
        (H5Dataset.mk [2, 3] ([1, 2, 3, 4, 5, 6] : List Int))) (fun _ => 0)
        ((0 : Nat) : Int) ((1 : Nat) : Int) = (0, OutState.live A) ∧
      A.rank = [2, 3].length - 1 ∧
      A.dims = [2, 3].eraseIdx 0 ∧
      A.N = ([2, 3].eraseIdx 0).prod ∧
      ∀ m, validIdx ([2, 3].eraseIdx 0) m = true →
        A.data[rowMajor ([2, 3].eraseIdx 0) m]?
          = ([1, 2, 3, 4, 5, 6] : List Int)[rowMajor [2, 3] (insAt 0 1 m)]? :=
  C3_sliceread (H5Env.mk true true true true true
      (H5Dataset.mk [2, 3] [1, 2, 3, 4, 5, 6])) (fun _ => 0) 0 1
    rfl rfl rfl rfl (by decide) (by decide) (by decide) (by decide)

/-- C4, evaluated at the failing input: slice-reading the rank-1 dataset with
dims `[5]`, data `[10,20,30,40,50]` at `slicedim = 0`, `islice = 2` returns
status 0 and an array of rank 0 with empty dims and `N = 1` — the claimed
rank-1, single-extent-1 shape does not appear, because arrayh5.c line 277
builds the result with `arrayh5_create(0, dims)` (the `dims[0] = 1`
assignment on line 276 is dead for the created array and only shapes the
temporary HDF5 memory dataspace). -/
theorem C4_sliceread_rank1_eval :
    arrayh5_read (H5Env.mk true true true true true
        (H5Dataset.mk [5] ([10, 20, 30, 40, 50] : List Int)))
      (fun _ => 0) 0 2
    = (0, OutState.live (arrayh5.mk 0 [] 1 [30])) := by decide

/-- C5: with a readable dataset (rank ≥ 1) and successful container calls,
`arrayh5_read` performs a full read — returning status 0 and a live array
with the dataset's exact dims and its contents verbatim — exactly when
`slicedim < 0`, or `slicedim ≥ rank` with `islice = 0`. -/
theorem C5_full_read_iff {α : Type} [Inhabited α] (env : H5Env α) (junk : Nat → α)
    (sd is : Int) (h1 : env.file_ok = true) (h2 : env.dataset_found = true)
    (h3 : env.open_ok = true) (h4 : env.read_ok = true)
    (h5 : env.sliceread_ok = true) (hrank : 1 ≤ env.dataset.dims.length) :
    (arrayh5_read env junk sd is
        = (0, OutState.live (arrayh5.mk env.dataset.dims.length env.dataset.dims
            env.dataset.dims.prod env.dataset.data)))
      ↔ (sd < 0 ∨ ((env.dataset.dims.length : Int) ≤ sd ∧ is = 0)) := by
  rw [arrayh5_read_body env junk _ _ h1 h2 h3 (by omega)]
  by_cases hc : sd < 0 ∨ ((env.dataset.dims.length : Int) ≤ sd ∧ is = 0)
  · rw [if_pos hc, if_neg (by simp [h4])]
    have he : withData (arrayh5_create env.dataset.dims.length env.dataset.dims junk)
        env.dataset.data
        = arrayh5.mk env.dataset.dims.length env.dataset.dims
          env.dataset.dims.prod env.dataset.data := by
      show arrayh5.mk env.dataset.dims.length
        (env.dataset.dims.take env.dataset.dims.length)
        ((env.dataset.dims.take env.dataset.dims.length).foldl (fun x y => x * y) 1)
        env.dataset.data = _
      rw [List.take_length, foldl_mul_eq_prod]
    rw [he]
    exact iff_of_true rfl hc
  · rw [if_neg hc]
    by_cases hs : sd < (env.dataset.dims.length : Int) ∧ 0 ≤ is ∧
        is < ((env.dataset.dims.getD sd.toNat 0 : Nat) : Int)
    · rw [if_pos hs, if_neg (by simp [h5])]
      refine iff_of_false ?_ hc
      intro he
      have he2 := congrArg (fun p => p.2) he
      simp only at he2
      have he3 : withData
          (if env.dataset.dims.length - 1 = 0 then arrayh5_create 0 [1] junk
           else arrayh5_create (env.dataset.dims.length - 1)
             (env.dataset.dims.eraseIdx sd.toNat) junk)
          (sliceData env.dataset.dims sd.toNat is.toNat env.dataset.data)
          = arrayh5.mk env.dataset.dims.length env.dataset.dims
            env.dataset.dims.prod env.dataset.data := by
        injection he2
      have hrk := congrArg arrayh5.rank he3
      by_cases hz : env.dataset.dims.length - 1 = 0
      · rw [if_pos hz] at hrk
        have : (0 : Nat) = env.dataset.dims.length := hrk
        omega
      · rw [if_neg hz] at hrk
        have : env.dataset.dims.length - 1 = env.dataset.dims.length := hrk
        omega
    · rw [if_neg hs]
      refine iff_of_false ?_ hc
      intro he
      have := congrArg (fun p => p.1) he
      simp only at this
      omega

/-- Witness for C5: a full read of a rank-1 dataset with `slicedim = -1`. -/
theorem C5_full_read_iff_witness :
    (arrayh5_read (H5Env.mk true true true true true
          (H5Dataset.mk [2] ([10, 20] : List Int))) (fun _ => 0) (-1) 7
        = (0, OutState.live (arrayh5.mk ([2] : List Nat).length [2]
            ([2] : List Nat).prod [10, 20])))
      ↔ ((-1 : Int) < 0 ∨ ((([2] : List Nat).length : Int) ≤ -1 ∧ (7 : Int) = 0)) :=
  C5_full_read_iff (H5Env.mk true true true true true (H5Dataset.mk [2] [10, 20]))
    (fun _ => 0) (-1) 7 rfl rfl rfl rfl rfl (by decide)

/-- C6, counterexample to the claim as stated: `slicedim = -1` lies outside
`[0, rank)` and `islice = 1` is nonzero, yet `arrayh5_read` performs a full
read — status 0 (not InvalidSlice = 5) and a live array (not "no array") —
because `slicedim < 0` selects the full-read branch. -/
theorem C6_claim_counterexample :
    (arrayh5_read (H5Env.mk true true true true true
        (H5Dataset.mk [2] ([10, 20] : List Int))) (fun _ => 0) (-1) 1).1 ≠ 5 ∧
    (arrayh5_read (H5Env.mk true true true true true
        (H5Dataset.mk [2] ([10, 20] : List Int))) (fun _ => 0) (-1) 1).2
      ≠ OutState.nulls := by decide

/-- C6 as amended: for a readable dataset (rank ≥ 1), a request with
`0 ≤ slicedim < rank` and `islice` outside `[0, dims[slicedim])`, or with
`slicedim ≥ rank` and `islice ≠ 0`, returns status InvalidSlice (5) and
leaves the output array fields null (no array produced). -/
theorem C6_invalid_slice {α : Type} [Inhabited α] (env : H5Env α) (junk : Nat → α)
    (sd is : Int) (h1 : env.file_ok = true) (h2 : env.dataset_found = true)
    (h3 : env.open_ok = true) (hrank : 1 ≤ env.dataset.dims.length)
    (hcond : (0 ≤ sd ∧ sd < (env.dataset.dims.length : Int) ∧
        (is < 0 ∨ ((env.dataset.dims.getD sd.toNat 0 : Nat) : Int) ≤ is)) ∨
      ((env.dataset.dims.length : Int) ≤ sd ∧ is ≠ 0)) :
    arrayh5_read env junk sd is = (5, OutState.nulls) := by
  rw [arrayh5_read_body env junk _ _ h1 h2 h3 (by omega),
    if_neg (by omega), if_neg (by omega)]

/-- Witness for C6 as amended: `islice = 5` out of range on a rank-1 dataset
of extent 2. -/
theorem C6_invalid_slice_witness :
    arrayh5_read (H5Env.mk true true true true true
        (H5Dataset.mk [2] ([10, 20] : List Int))) (fun _ => 0) 0 5
      = (5, OutState.nulls) :=
  C6_invalid_slice (H5Env.mk true true true true true (H5Dataset.mk [2] [10, 20]))
    (fun _ => 0) 0 5 rfl rfl rfl (by decide) (by decide)

/-- C9: whenever `arrayh5_read` returns a non-zero status, no live array is
handed to the caller: for ReadError (3) and SliceReadError (4) the partially
allocated array has been destroyed before returning, and for every other
error status the output array's dims and data fields are still the nulls
written at entry. -/
theorem C9_error_paths {α : Type} [Inhabited α] (env : H5Env α) (junk : Nat → α)
    (sd is : Int) :
    ((arrayh5_read env junk sd is).1 = 3 ∨ (arrayh5_read env junk sd is).1 = 4 →
      (arrayh5_read env junk sd is).2 = OutState.destroyed) ∧
    ((arrayh5_read env junk sd is).1 ≠ 0 → (arrayh5_read env junk sd is).1 ≠ 3 →
      (arrayh5_read env junk sd is).1 ≠ 4 →
      (arrayh5_read env junk sd is).2 = OutState.nulls) := by
  simp only [arrayh5_read]
  split_ifs <;> simp

/-- Witness for C9: a failing full-read `H5Dread` (status 3) leaves the
output array destroyed. -/
theorem C9_error_paths_witness :
    (arrayh5_read (H5Env.mk true true true false true
        (H5Dataset.mk [2] ([10, 20] : List Int))) (fun _ => 0) (-1) 0).2
      = OutState.destroyed :=
  (C9_error_paths (H5Env.mk true true true false true (H5Dataset.mk [2] [10, 20]))
    (fun _ => 0) (-1) 0).1 (Or.inl (by decide))

end ArrayH5
